import Mathlib

/-!
Verification of the chunked multi-pattern log search engine and the
file-ingestion helpers of the loganalysis repository.

Strings of the host language are modelled as lists of characters
(UTF-16-ish code units at the granularity the code observes); machine
floats only ever appear in threshold comparisons, which are modelled as
exact natural-number comparisons on byte counts.  Loops whose
termination depends on runtime data are modelled with explicit fuel: a
result of none means the loop is still running after that much fuel,
and the top-level entry points pass enough fuel for every terminating
execution of the source.
-/

namespace LogAnalysis

/-- ASCII-level model of the host toLowerCase used by the literal
search path and by filename normalization. -/
def jsToLower (c : Char) : Char :=
  if 65 ≤ c.toNat ∧ c.toNat ≤ 90 then Char.ofNat (c.toNat + 32) else c

/-- Whitespace set of the host trim function (tab through carriage
return, space, and the Unicode space separators it strips). -/
def isJsWhitespace (c : Char) : Bool :=
  let n := c.toNat
  (9 ≤ n && n ≤ 13) || n == 32 || n == 160 || n == 0x1680 ||
    (0x2000 ≤ n && n ≤ 0x200A) || n == 0x2028 || n == 0x2029 ||
    n == 0x202F || n == 0x205F || n == 0x3000 || n == 0xFEFF

/-- Model of the host String.prototype.trim. -/
def jsTrim (s : List Char) : List Char :=
  ((s.dropWhile isJsWhitespace).reverse.dropWhile isJsWhitespace).reverse

/-- Model of the host String.prototype.split with separator a single
newline character: splitting the empty string yields one empty piece,
and a trailing separator yields a trailing empty piece. -/
def jsSplit : List Char → List (List Char)
  | [] => [[]]
  | c :: cs =>
    if c = '\n' then [] :: jsSplit cs
    else
      match jsSplit cs with
      | [] => [[c]]
      | l :: ls => (c :: l) :: ls

/-- Join with a single newline, the inverse direction of jsSplit
(host Array.prototype.join with separator a newline). -/
def jsJoinNl : List (List Char) → List Char
  | [] => []
  | [l] => l
  | l :: l2 :: ls => l ++ '\n' :: jsJoinNl (l2 :: ls)

/-- UTF-8 byte length of one character, the unit in which the host
Blob measures string size. -/
def utf8Len (c : Char) : Nat :=
  if c.toNat < 0x80 then 1
  else if c.toNat < 0x800 then 2
  else if c.toNat < 0x10000 then 3
  else 4

/-- Size in bytes of a string as reported by new Blob([content]).size. -/
def byteSize (s : List Char) : Nat :=
  (s.map utf8Len).sum

/-! ## Pattern data model (useStreamingSearch.ts, LogSearchTool.tsx) -/

/-- The two logical connectives a pattern can carry toward the next
pattern in a flat chain. -/
inductive LogicalOp
  | AND
  | OR
deriving DecidableEq

/-- Source interface SearchPattern: id, pattern text, regex flag,
enabled flag, color tag, optional connective to the next pattern. -/
structure SearchPattern where
  id : String
  pattern : List Char
  isRegex : Bool
  isEnabled : Bool
  color : String
  logicalOperator : Option LogicalOp := none
deriving DecidableEq

/-- Source match-span record: the field written end in the source is
called stop here because end is reserved. -/
structure MatchSpan where
  pattern : List Char
  color : String
  start : Nat
  stop : Nat
deriving DecidableEq

/-- Source interface SearchResult: 1-based line number, original line
content, and the collected spans sorted by start.  The source field
named matches is called matchList here because matches is reserved. -/
structure SearchResult where
  lineNumber : Nat
  content : List Char
  matchList : List MatchSpan
deriving DecidableEq

/-- Stable insertion of a span into a list kept sorted by start,
matching the stable host sort with comparator a.start - b.start. -/
def insertSpan (sp : MatchSpan) : List MatchSpan → List MatchSpan
  | [] => [sp]
  | b :: bs => if sp.start ≤ b.start then sp :: b :: bs else b :: insertSpan sp bs

/-- Stable sort by span start, modelling matches.sort((a, b) =>
a.start - b.start). -/
def sortSpans : List MatchSpan → List MatchSpan
  | [] => []
  | a :: as => insertSpan a (sortSpans as)

/-! ## Content manager (useContentManager.ts) -/

/-- Source ContentState plus the fullContentRef slot: content is the
possibly truncated display text, full the authoritative text. -/
structure CMState where
  content : List Char
  lineCount : Nat
  sizeBytes : Nat
  isLarge : Bool
  truncated : Bool
  maxLines : Nat
  full : List Char
deriving DecidableEq

/-- Source setContent: analyze the new text, store it as the
authoritative full text, and truncate the display text to maxLines
lines when the text is over the line or size threshold.  The float
comparison sizeMB with 1 MB = 1048576 bytes is modelled exactly on
byte counts. -/
def setContentModel (maxLines : Nat) (newContent : List Char) : CMState :=
  let lines := jsSplit newContent
  let sizeBytes := byteSize newContent
  let isLarge := decide (lines.length > 10000) || decide (sizeBytes > 5 * 1048576)
  let needsTruncation := decide (lines.length > maxLines) || decide (sizeBytes > 50 * 1048576)
  { content := if needsTruncation then jsJoinNl (lines.take maxLines) else newContent
    lineCount := lines.length
    sizeBytes := sizeBytes
    isLarge := isLarge
    truncated := needsTruncation
    maxLines := maxLines
    full := newContent }

/-- Source loadMore: when the display is truncated it re-runs
setContent on the stored full text. -/
def loadMoreModel (st : CMState) : CMState :=
  if st.truncated then setContentModel st.maxLines st.full else st

/-! ## Pattern collection (LogSearchTool.tsx addPattern) -/

/-- The five color tags cycled through when adding patterns. -/
def PATTERN_COLORS : List String :=
  ["pattern-1", "pattern-2", "pattern-3", "pattern-4", "pattern-5"]

/-- Source addPattern: a blank input (empty after trim) is rejected and
the collection is unchanged; otherwise the trimmed text is stored as a
fresh enabled pattern with the next cyclic color. -/
def addPattern (patterns : List SearchPattern) (newPattern : List Char)
    (isRegexMode : Bool) (freshId : String) : List SearchPattern :=
  if (jsTrim newPattern).isEmpty then patterns
  else
    patterns ++ [{ id := freshId
                   pattern := jsTrim newPattern
                   isRegex := isRegexMode
                   isEnabled := true
                   color := PATTERN_COLORS.getD (patterns.length % PATTERN_COLORS.length) "" }]

/-! ## Match engine (useStreamingSearch.ts searchInChunks) -/

/-- True when needle occurs in hay at position i (enough characters
follow and they agree with needle). -/
def matchesAt (hay needle : List Char) (i : Nat) : Bool :=
  (hay.drop i).take needle.length == needle

/-- Model of the host String.prototype.indexOf(needle, start): the
smallest occurrence position at or after start clamped to the length,
or none where the host returns -1.  An empty needle is found at the
clamped start position. -/
def jsIndexOf (hay needle : List Char) (start : Nat) : Option Nat :=
  (List.range (hay.length + 1)).find?
    (fun i => decide (min start hay.length ≤ i) && matchesAt hay needle i)

/-- The literal-mode while loop of searchInChunks: repeatedly find the
next case-insensitive occurrence from the cursor, push a span of the
pattern length, and restart the search at the end of that span.  Fuel
counts loop iterations; none models an execution still running after
that many iterations (the source loop never exits when the pattern
text is empty).  The boolean is the hasMatch flag of the source. -/
def literalLoop (p : SearchPattern) (line : List Char) :
    Nat → Nat → Option (List MatchSpan × Bool)
  | 0, _ => none
  | fuel + 1, cursor =>
    match jsIndexOf (line.map jsToLower) (p.pattern.map jsToLower) cursor with
    | none => some ([], false)
    | some idx =>
      match literalLoop p line fuel (idx + p.pattern.length) with
      | none => none
      | some (spans, _) =>
        some ({ pattern := p.pattern, color := p.color,
                start := idx, stop := idx + p.pattern.length } :: spans, true)

/-- Literal matching for one pattern on one line, entered with the
fuel that suffices for every terminating source execution. -/
def literalStep (p : SearchPattern) (line : List Char) : Option (List MatchSpan × Bool) :=
  literalLoop p line (line.length + 1) 0

/-- Abstract interface to the host regex engine: given the line and
the current lastIndex cursor, either the next match as (index, length
of the matched text) or none where exec returns null. -/
def Matcher : Type := List Char → Nat → Option (Nat × Nat)

/-- The host regex constructor: compile either yields an exec function
or fails (throws) on invalid pattern syntax, modelled by none. -/
structure RegexEngine where
  compile : List Char → Option Matcher

/-- The regex-mode while loop of searchInChunks: exec from the current
lastIndex; on a match push the span [index, index + length) and
continue from index + length, exactly the cursor update the host
performs, with no adjustment for zero-length matches.  Fuel as in
literalLoop. -/
def regexLoop (m : Matcher) (p : SearchPattern) (line : List Char) :
    Nat → Nat → Option (List MatchSpan × Bool)
  | 0, _ => none
  | fuel + 1, lastIndex =>
    match m line lastIndex with
    | none => some ([], false)
    | some (idx, len) =>
      match regexLoop m p line fuel (idx + len) with
      | none => none
      | some (spans, _) =>
        some ({ pattern := p.pattern, color := p.color,
                start := idx, stop := idx + len } :: spans, true)

/-- One pattern processed on one line inside the per-pattern try
block: a regex pattern first compiles (a compile failure is caught,
contributing no spans, hasMatch false, and one warning naming the
pattern); otherwise the regex or literal loop runs.  The warning list
is the third component. -/
def stepPattern (eng : RegexEngine) (line : List Char) (p : SearchPattern) :
    Option (List MatchSpan × Bool × List (List Char)) :=
  if p.isRegex then
    match eng.compile p.pattern with
    | none => some ([], false, [p.pattern])
    | some m =>
      match regexLoop m p line (line.length + 2) 0 with
      | none => none
      | some (spans, b) => some (spans, b, [])
  else
    match literalStep p line with
    | none => none
    | some (spans, b) => some (spans, b, [])

/-- First pass of searchInChunks on one line: every enabled pattern in
order contributes its spans to the shared matches array and its
(id, hasMatch) entry to the patternMatches map; warnings accumulate.
none when some pattern loop does not terminate. -/
def processLine (eng : RegexEngine) (ps : List SearchPattern) (line : List Char) :
    Option (List MatchSpan × List (String × Bool) × List (List Char)) :=
  match ps with
  | [] => some ([], [], [])
  | p :: rest =>
    match stepPattern eng line p with
    | none => none
    | some (s, b, w) =>
      match processLine eng rest line with
      | none => none
      | some (s2, m2, w2) => some (s ++ s2, (p.id, b) :: m2, w ++ w2)

/-- Lookup in the patternMatches map: the map is built by set calls in
pattern order, so the last write wins; a missing id reads as false
(undefined coerced by the source || false). -/
def lookupMatch (pairs : List (String × Bool)) (id : String) : Bool :=
  ((pairs.reverse).lookup id).getD false

/-- Source applyLogicalOperations: empty means excluded, one pattern
means its own flag, otherwise a strictly left-associative fold where
each later pattern combines with OR when its stored operator is OR and
with AND otherwise (AND is the default for an unset operator). -/
def applyLogicalOperations (ps : List SearchPattern) (mm : String → Bool) : Bool :=
  match ps with
  | [] => false
  | [p] => mm p.id
  | p :: rest =>
    rest.foldl
      (fun acc q =>
        match q.logicalOperator with
        | some LogicalOp.OR => acc || mm q.id
        | _ => acc && mm q.id)
      (mm p.id)

/-- Second pass of searchInChunks on one line: the line joins the
results exactly when the logical fold accepts it and at least one span
was collected; the spans are then sorted by start and the line number
is the 0-based index plus one. -/
def lineResult (eng : RegexEngine) (ps : List SearchPattern)
    (lineIndex : Nat) (line : List Char) : Option (Option SearchResult) :=
  match processLine eng ps line with
  | none => none
  | some (spans, pairs, _) =>
    let mm := lookupMatch pairs
    if applyLogicalOperations ps mm && !spans.isEmpty then
      some (some { lineNumber := lineIndex + 1, content := line,
                   matchList := sortSpans spans })
    else
      some none

/-- Sequential processing of a list of lines starting at a given
0-based index, appending each produced result in order. -/
def processLines (eng : RegexEngine) (ps : List SearchPattern) :
    Nat → List (List Char) → Option (List SearchResult)
  | _, [] => some []
  | idx, l :: ls =>
    match lineResult eng ps idx l with
    | none => none
    | some o =>
      match processLines eng ps (idx + 1) ls with
      | none => none
      | some rs =>
        some (match o with
              | some r => r :: rs
              | none => rs)

/-- The chunk loop of searchInChunks: while i is below the number of
lines, process the slice of chunkSize lines starting at i and append
its results, then advance i by chunkSize.  Fuel counts loop
iterations (a nonpositive chunk size would loop forever in the
source). -/
def searchChunksGo (eng : RegexEngine) (ps : List SearchPattern)
    (lines : List (List Char)) (chunkSize : Nat) :
    Nat → Nat → Option (List SearchResult)
  | 0, i => if i < lines.length then none else some []
  | fuel + 1, i =>
    if i < lines.length then
      match processLines eng ps i ((lines.drop i).take chunkSize) with
      | none => none
      | some rs =>
        match searchChunksGo eng ps lines chunkSize fuel (i + chunkSize) with
        | none => none
        | some rs2 => some (rs ++ rs2)
    else some []

/-- Source searchInChunks as a pure function from content and patterns
to the final accumulated result list: split the content on newlines,
keep the enabled patterns, return the empty result set when none are
enabled, otherwise run the chunk loop from line 0. -/
def searchInChunksModel (eng : RegexEngine) (content : List Char)
    (patterns : List SearchPattern) (chunkSize : Nat) : Option (List SearchResult) :=
  let lines := jsSplit content
  let enabled := patterns.filter (·.isEnabled)
  if enabled.isEmpty then some []
  else searchChunksGo eng enabled lines chunkSize (lines.length + 1) 0

/-- The hasMatch boolean one pattern produces on one line (false while
the loop for it is still running). -/
def patternHasMatch (eng : RegexEngine) (line : List Char) (p : SearchPattern) : Bool :=
  match stepPattern eng line p with
  | some (_, b, _) => b
  | none => false

/-- Modelled from the spec sentence for the flat chain: the fold
starts as the first pattern's has-match boolean and each subsequent
pattern i combines with OR when its operatorToNext is OR, otherwise
with AND (AND being the default when unset).  Stated verbatim from the
spec to compare against applyLogicalOperations. -/
def specChainFold (ps : List SearchPattern) (hasMatch : SearchPattern → Bool) : Bool :=
  match ps with
  | [] => false
  | p :: rest =>
    rest.foldl
      (fun acc q =>
        match q.logicalOperator with
        | some LogicalOp.OR => acc || hasMatch q
        | _ => acc && hasMatch q)
      (hasMatch p)

/-- A faithful exec model for the regex b* with the gi flags: at every
cursor position not past the end it matches the run of letters b
starting there, which is empty at any position not holding a b. -/
def bStarMatcher : Matcher := fun line lastIndex =>
  if lastIndex ≤ line.length then
    some (lastIndex, ((line.drop lastIndex).takeWhile (fun c => jsToLower c = 'b')).length)
  else none

/-! ## Search controller (useSearchController in the repository) -/

/-- The four observable outcomes of one triggerSearch call: the
disabled no-op, clearing the results, the requires-confirmation
signal, and scheduling the debounced search. -/
inductive TriggerOutcome
  | noop
  | cleared
  | requiresConfirmation
  | scheduled
deriving DecidableEq

/-- Source shouldWarnLargeContent: more than 50000 lines or more than
10 MB of UTF-8 bytes. -/
def shouldWarnLargeContent (content : List Char) : Bool :=
  decide ((jsSplit content).length > 50000) || decide (byteSize content > 10 * 1048576)

/-- Source triggerSearch as a decision function: disabled and not
forced is a no-op; no enabled pattern or blank (falsy after trim)
content clears the results; with showWarning set, large content
returns the requires-confirmation signal; otherwise the debounced
chunk search is scheduled. -/
def triggerSearchModel (isSearchEnabled : Bool) (content : List Char)
    (patterns : List SearchPattern) (force showWarning : Bool) : TriggerOutcome :=
  if !isSearchEnabled && !force then TriggerOutcome.noop
  else if (patterns.filter (·.isEnabled)).isEmpty then TriggerOutcome.cleared
  else if (jsTrim content).isEmpty then TriggerOutcome.cleared
  else if showWarning && shouldWarnLargeContent content then TriggerOutcome.requiresConfirmation
  else TriggerOutcome.scheduled

/-- Source forceSearch: re-invoke triggerSearch with force set and no
showWarning option. -/
def forceSearchModel (isSearchEnabled : Bool) (content : List Char)
    (patterns : List SearchPattern) : TriggerOutcome :=
  triggerSearchModel isSearchEnabled content patterns true false

/-! ## Archive format detection (fileProcessor.worker.js) -/

/-- The formats the detector distinguishes. -/
inductive ArchiveFormat
  | zip
  | gzip
  | tar
  | targz
  | unknown
deriving DecidableEq

/-- Model of the host String.prototype.endsWith. -/
def jsEndsWith (s suffix : List Char) : Bool :=
  decide (suffix.length ≤ s.length) && (s.drop (s.length - suffix.length) == suffix)

/-- Source detectCompressionFormat: lowercased extension checks first
in source order, then magic bytes: PK for zip, 1f 8b for gzip, and the
ASCII letters ustar at offsets 257 to 261 for tar, the last only when
the buffer is longer than 262 bytes. -/
def detectCompressionFormat (fileName : List Char) (buffer : List Nat) : ArchiveFormat :=
  let lower := fileName.map jsToLower
  if jsEndsWith lower (".zip".toList) then ArchiveFormat.zip
  else if jsEndsWith lower (".tar.gz".toList) || jsEndsWith lower (".tgz".toList) then ArchiveFormat.targz
  else if jsEndsWith lower (".gz".toList) || jsEndsWith lower (".gzip".toList) then ArchiveFormat.gzip
  else if jsEndsWith lower (".tar".toList) then ArchiveFormat.tar
  else if buffer.get? 0 == some 0x50 && buffer.get? 1 == some 0x4B then ArchiveFormat.zip
  else if buffer.get? 0 == some 0x1F && buffer.get? 1 == some 0x8B then ArchiveFormat.gzip
  else if decide (buffer.length > 262) && ((buffer.drop 257).take 5 == [117, 115, 116, 97, 114]) then ArchiveFormat.tar
  else ArchiveFormat.unknown

/-- Modelled from the claim sentence for format detection: extensions
first in the order the claim lists them, then magic bytes with the
ustar check requiring only that the five bytes at offsets 257 to 261
equal ustar. -/
def claimDetectFormat (fileName : List Char) (buffer : List Nat) : ArchiveFormat :=
  let lower := fileName.map jsToLower
  if jsEndsWith lower (".tar.gz".toList) || jsEndsWith lower (".tgz".toList) then ArchiveFormat.targz
  else if jsEndsWith lower (".tar".toList) then ArchiveFormat.tar
  else if jsEndsWith lower (".gz".toList) || jsEndsWith lower (".gzip".toList) then ArchiveFormat.gzip
  else if jsEndsWith lower (".zip".toList) then ArchiveFormat.zip
  else if buffer.get? 0 == some 0x50 && buffer.get? 1 == some 0x4B then ArchiveFormat.zip
  else if buffer.get? 0 == some 0x1F && buffer.get? 1 == some 0x8B then ArchiveFormat.gzip
  else if (buffer.drop 257).take 5 == [117, 115, 116, 97, 114] then ArchiveFormat.tar
  else ArchiveFormat.unknown

/-- The claim's detection rule amended with the length guard the
source imposes on the ustar check. -/
def claimDetectFormatAmended (fileName : List Char) (buffer : List Nat) : ArchiveFormat :=
  let lower := fileName.map jsToLower
  if jsEndsWith lower (".tar.gz".toList) || jsEndsWith lower (".tgz".toList) then ArchiveFormat.targz
  else if jsEndsWith lower (".tar".toList) then ArchiveFormat.tar
  else if jsEndsWith lower (".gz".toList) || jsEndsWith lower (".gzip".toList) then ArchiveFormat.gzip
  else if jsEndsWith lower (".zip".toList) then ArchiveFormat.zip
  else if buffer.get? 0 == some 0x50 && buffer.get? 1 == some 0x4B then ArchiveFormat.zip
  else if buffer.get? 0 == some 0x1F && buffer.get? 1 == some 0x8B then ArchiveFormat.gzip
  else if decide (buffer.length > 262) && ((buffer.drop 257).take 5 == [117, 115, 116, 97, 114]) then ArchiveFormat.tar
  else ArchiveFormat.unknown

/-! ## Decompression fallback (fileProcessor.worker.js decompressFile) -/

/-- The external decompression primitives and the plain-text reader,
abstracted: each either yields text content or fails with a message
(a thrown error in the source). -/
structure ProcessorOps where
  decompressZip : List Nat → Except String (List Char)
  decompressGzip : List Nat → Except String (List Char)
  decompressTar : List Nat → Except String (List Char)
  decompressTarGz : List Nat → Except String (List Char)
  processRegularFile : List Char → List Nat → Except String (List Char)

/-- The switch body of decompressFile: dispatch on the detected
format, with unknown formats handed to the regular-file reader. -/
def decompressAttempt (ops : ProcessorOps) (fmt : ArchiveFormat)
    (name : List Char) (buffer : List Nat) : Except String (List Char) :=
  match fmt with
  | ArchiveFormat.zip => ops.decompressZip buffer
  | ArchiveFormat.gzip => ops.decompressGzip buffer
  | ArchiveFormat.tar => ops.decompressTar buffer
  | ArchiveFormat.targz => ops.decompressTarGz buffer
  | ArchiveFormat.unknown => ops.processRegularFile name buffer

/-- Source decompressFile: try the format-dispatched decompression;
when it fails, fall back to processing the raw bytes as a regular text
file, whose own outcome then decides the file. -/
def decompressFileModel (ops : ProcessorOps) (name : List Char)
    (buffer : List Nat) : Except String (List Char) :=
  match decompressAttempt ops (detectCompressionFormat name buffer) name buffer with
  | Except.ok c => Except.ok c
  | Except.error _ => ops.processRegularFile name buffer

/-- A case-insensitive occurrence of the pattern text in the line at
position i. -/
def occursAt (p : SearchPattern) (line : List Char) (i : Nat) : Prop :=
  matchesAt (line.map jsToLower) (p.pattern.map jsToLower) i = true

/-- The specification shape of literal matching, stated from the spec:
the spans are exactly the leftmost-first, non-overlapping,
case-insensitive occurrences, each of the pattern length, with every
next occurrence searched from the end of the previous one. -/
def leftmostSpans (p : SearchPattern) (line : List Char) : Nat → List MatchSpan → Prop
  | c, [] => ∀ j, c ≤ j → ¬ occursAt p line j
  | c, sp :: rest =>
    c ≤ sp.start ∧ occursAt p line sp.start ∧
    (∀ j, c ≤ j → j < sp.start → ¬ occursAt p line j) ∧
    sp.stop = sp.start + p.pattern.length ∧
    leftmostSpans p line sp.stop rest

/-! ## Concrete instances used by witnesses and counterexamples -/

/-- A regex engine on which every compilation fails; literal patterns
never consult it. -/
def nullEngine : RegexEngine := ⟨fun _ => none⟩

/-- Literal pattern error, first element of the flat-chain example
(default AND connective, that is, unset). -/
def errorPattern : SearchPattern :=
  { id := "p0", pattern := "error".toList, isRegex := false,
    isEnabled := true, color := "pattern-1" }

/-- Literal pattern timeout with operatorToNext OR, second element of
the flat-chain example. -/
def timeoutPattern : SearchPattern :=
  { id := "p1", pattern := "timeout".toList, isRegex := false,
    isEnabled := true, color := "pattern-2",
    logicalOperator := some LogicalOp.OR }

/-- The regex pattern b* (matches the empty string at any position). -/
def bStarPattern : SearchPattern :=
  { id := "pb", pattern := "b*".toList, isRegex := true,
    isEnabled := true, color := "pattern-3" }

/-- An engine that compiles exactly the pattern b* to its faithful
exec model. -/
def bStarEngine : RegexEngine :=
  ⟨fun t => if t == "b*".toList then some bStarMatcher else none⟩

/-- A syntactically invalid regex pattern (an unclosed character
class), used for the compile-failure claims. -/
def badRegexPattern : SearchPattern :=
  { id := "px", pattern := "[".toList, isRegex := true,
    isEnabled := true, color := "pattern-4" }

/-- Processor primitives whose gzip decompressor rejects its input as
corrupt while the plain-text reader succeeds. -/
def corruptGzipOps : ProcessorOps :=
  { decompressZip := fun _ => Except.error "zip failed"
    decompressGzip := fun _ => Except.error "corrupt gzip"
    decompressTar := fun _ => Except.error "tar failed"
    decompressTarGz := fun _ => Except.error "tar.gz failed"
    processRegularFile := fun _ _ => Except.ok "raw text".toList }

/-! ## Basic facts about the string primitives -/

theorem jsSplit_ne_nil (s : List Char) : jsSplit s ≠ [] := by
  match s with
  | [] => simp [jsSplit]
  | c :: cs =>
    by_cases h : c = '\n'
    · simp [jsSplit, h]
    · simp only [jsSplit, if_neg h]
      cases jsSplit cs <;> simp

theorem jsSplit_nl_cons (cs : List Char) :
    jsSplit ('\n' :: cs) = [] :: jsSplit cs := by
  simp [jsSplit]

theorem jsSplit_replicate_nl (n : Nat) :
    jsSplit (List.replicate n '\n') = List.replicate (n + 1) ([] : List Char) := by
  induction n with
  | zero => simp [jsSplit]
  | succ k ih => simp [List.replicate_succ, jsSplit_nl_cons, ih]

theorem jsSplit_cons_replicate_nl (c : Char) (h : c ≠ '\n') (n : Nat) :
    jsSplit (c :: List.replicate n '\n') = [c] :: List.replicate n ([] : List Char) := by
  simp only [jsSplit, if_neg h, jsSplit_replicate_nl, List.replicate_succ]

theorem jsJoinNl_replicate_nil (n : Nat) :
    jsJoinNl (List.replicate (n + 1) ([] : List Char)) = List.replicate n '\n' := by
  induction n with
  | zero => simp [jsJoinNl]
  | succ k ih =>
    rw [List.replicate_succ]
    rw [show List.replicate (k + 1) ([] : List Char) =
          [] :: List.replicate k [] from List.replicate_succ ..] at ih ⊢
    simp only [jsJoinNl, List.nil_append] at ih ⊢
    rw [ih, List.replicate_succ]

theorem dropWhile_idem (p : Char → Bool) (l : List Char) :
    List.dropWhile p (List.dropWhile p l) = List.dropWhile p l := by
  induction l with
  | nil => simp
  | cons a as ih =>
    by_cases h : p a = true
    · simp [List.dropWhile_cons, h, ih]
    · simp [List.dropWhile_cons, h]

theorem dropWhile_replicate_append (p : Char → Bool) (a : Char) (h : p a = true)
    (n : Nat) (l : List Char) :
    List.dropWhile p (List.replicate n a ++ l) = List.dropWhile p l := by
  induction n with
  | zero => simp
  | succ k ih => simp [List.replicate_succ, List.dropWhile_cons, h, ih]

theorem dropWhile_replicate (p : Char → Bool) (a : Char) (h : p a = true) (n : Nat) :
    List.dropWhile p (List.replicate n a) = [] := by
  have := dropWhile_replicate_append p a h n []
  simpa using this

/-- The part jsTrim removes at the end of a string. -/
theorem trimEnd_append (w : Char → Bool) (l : List Char) :
    ∃ t, (List.dropWhile w l.reverse).reverse ++ t = l := by
  refine ⟨(List.takeWhile w l.reverse).reverse, ?_⟩
  rw [← List.reverse_append, List.takeWhile_append_dropWhile, List.reverse_reverse]

theorem dropWhile_trimEnd (w : Char → Bool) (l : List Char)
    (hl : List.dropWhile w l = l) :
    List.dropWhile w (List.dropWhile w l.reverse).reverse
      = (List.dropWhile w l.reverse).reverse := by
  cases hE : (List.dropWhile w l.reverse).reverse with
  | nil => simp
  | cons a t =>
    obtain ⟨junk, hj⟩ := trimEnd_append w l
    rw [hE] at hj
    have hwa : w a = false := by
      have hlform : l = a :: (t ++ junk) := by rw [← hj, List.cons_append]
      have hx := (List.dropWhile_eq_self_iff.mp hl)
      rw [hlform] at hx
      have := hx (by simp)
      simp only [List.get] at this
      cases hwe : w a with
      | false => rfl
      | true => exact absurd hwe this
    simp [List.dropWhile_cons, hwa]

theorem jsTrim_idem (s : List Char) : jsTrim (jsTrim s) = jsTrim s := by
  unfold jsTrim
  have h1 : List.dropWhile isJsWhitespace
      ((List.dropWhile isJsWhitespace
        (List.dropWhile isJsWhitespace s).reverse).reverse)
      = (List.dropWhile isJsWhitespace
          (List.dropWhile isJsWhitespace s).reverse).reverse :=
    dropWhile_trimEnd isJsWhitespace (List.dropWhile isJsWhitespace s)
      (dropWhile_idem isJsWhitespace s)
  rw [h1, List.reverse_reverse, dropWhile_idem]

/-! ## Claim theorems: content manager and pattern collection -/

/-- Symbolic evaluation of setContent on a content of n plus one lines
(n newline characters) when the maximum is positive and below the line
count: the display is truncated to the first maxL lines. -/
theorem setContent_replicate_nl (maxL n : Nat) (hlt : maxL < n + 1) (hpos : 0 < maxL) :
    (setContentModel maxL (List.replicate n '\n')).content
        = List.replicate (maxL - 1) '\n' ∧
    (setContentModel maxL (List.replicate n '\n')).truncated = true ∧
    (setContentModel maxL (List.replicate n '\n')).maxLines = maxL ∧
    (setContentModel maxL (List.replicate n '\n')).full = List.replicate n '\n' := by
  have hsplit : jsSplit (List.replicate n '\n')
      = List.replicate (n + 1) ([] : List Char) := jsSplit_replicate_nl n
  have hlen : (jsSplit (List.replicate n '\n')).length = n + 1 := by
    rw [hsplit, List.length_replicate]
  have hdec : decide ((jsSplit (List.replicate n '\n')).length > maxL) = true := by
    rw [hlen]; exact decide_eq_true_eq.mpr hlt
  have htr : (decide ((jsSplit (List.replicate n '\n')).length > maxL)
      || decide (byteSize (List.replicate n '\n') > 50 * 1048576)) = true := by
    rw [hdec, Bool.true_or]
  refine ⟨?_, ?_, rfl, rfl⟩
  · show (if (decide ((jsSplit (List.replicate n '\n')).length > maxL)
        || decide (byteSize (List.replicate n '\n') > 50 * 1048576)) = true
      then jsJoinNl ((jsSplit (List.replicate n '\n')).take maxL)
      else List.replicate n '\n') = List.replicate (maxL - 1) '\n'
    rw [if_pos htr, hsplit, List.take_replicate]
    have hmin : maxL ⊓ (n + 1) = maxL := Nat.min_eq_left (by omega)
    rw [hmin]
    have hm : maxL = (maxL - 1) + 1 := by omega
    rw [hm]
    exact jsJoinNl_replicate_nil (maxL - 1)
  · exact htr

/-- C2: on content of 150000 lines with the default maximum of 100000
lines, setContent produces a 100000-line display marked truncated, as
the claim states; but loadMore re-runs setContent on the stored full
text, which truncates again, so the state is left completely
unchanged: the display does not become the full content and the
truncated flag stays true, contradicting the loadMore half of the
claim. -/
theorem C2_loadMore_retruncates :
    (jsSplit (setContentModel 100000 (List.replicate 149999 '\n')).content).length = 100000 ∧
    (setContentModel 100000 (List.replicate 149999 '\n')).truncated = true ∧
    loadMoreModel (setContentModel 100000 (List.replicate 149999 '\n'))
      = setContentModel 100000 (List.replicate 149999 '\n') ∧
    (setContentModel 100000 (List.replicate 149999 '\n')).content
      ≠ (setContentModel 100000 (List.replicate 149999 '\n')).full := by
  obtain ⟨hcontent, htrunc, hmax, hfull⟩ :=
    setContent_replicate_nl 100000 149999 (by norm_num) (by norm_num)
  rw [show (100000 : Nat) - 1 = 99999 from by norm_num] at hcontent
  refine ⟨?_, htrunc, ?_, ?_⟩
  · rw [hcontent, jsSplit_replicate_nl, List.length_replicate]
  · rw [loadMoreModel, htrunc]
    simp only [if_pos]
    rw [hmax, hfull]
  · rw [hcontent, hfull]
    intro h
    have := congrArg List.length h
    simp only [List.length_replicate] at this
    omega

/-- C10: addPattern rejects input that is blank after trimming,
leaving the collection unchanged; and the collection invariant that
every stored pattern has non-empty, already-trimmed text is preserved
by every addPattern call. -/
theorem C10_addPattern_blank_rejected (ps : List SearchPattern)
    (input : List Char) (m : Bool) (fid : String)
    (hinv : ∀ p ∈ ps, jsTrim p.pattern = p.pattern ∧ p.pattern ≠ []) :
    ((jsTrim input).isEmpty = true → addPattern ps input m fid = ps) ∧
    (∀ p ∈ addPattern ps input m fid, jsTrim p.pattern = p.pattern ∧ p.pattern ≠ []) := by
  constructor
  · intro h
    simp [addPattern, h]
  · intro p hp
    by_cases h : (jsTrim input).isEmpty = true
    · rw [addPattern, if_pos h] at hp
      exact hinv p hp
    · rw [addPattern, if_neg h] at hp
      rcases List.mem_append.mp hp with hmem | hmem
      · exact hinv p hmem
      · have hpe := List.mem_singleton.mp hmem
        subst hpe
        exact ⟨jsTrim_idem input,
          fun hnil => h (by rw [show jsTrim input = [] from hnil]; rfl)⟩

/-- C10 witness: adding a pattern with text two spaces around err to
the empty collection stores the trimmed non-empty text err. -/
theorem C10_witness :
    (∀ p ∈ ([] : List SearchPattern), jsTrim p.pattern = p.pattern ∧ p.pattern ≠ []) ∧
    (((jsTrim "   ".toList).isEmpty = true →
        addPattern [] "   ".toList false "f1" = []) ∧
      (∀ p ∈ addPattern [] "  err ".toList false "f2",
        jsTrim p.pattern = p.pattern ∧ p.pattern ≠ [])) := by
  refine ⟨by simp, ?_, ?_⟩
  · exact (C10_addPattern_blank_rejected [] "   ".toList false "f1" (by simp)).1
  · exact (C10_addPattern_blank_rejected [] "  err ".toList false "f2" (by simp)).2

/-! ## Claim theorems: search controller gating -/

theorem jsTrim_replicate_nl (n : Nat) : jsTrim (List.replicate n '\n') = [] := by
  unfold jsTrim
  rw [dropWhile_replicate isJsWhitespace '\n' (by decide) n]
  rfl

theorem jsTrim_cons_replicate_nl (c : Char) (hc : isJsWhitespace c = false) (n : Nat) :
    jsTrim (c :: List.replicate n '\n') = [c] := by
  unfold jsTrim
  rw [List.dropWhile_cons, if_neg (by simp [hc])]
  rw [List.reverse_cons, List.reverse_replicate]
  rw [dropWhile_replicate_append isJsWhitespace '\n' (by decide) n [c]]
  rw [List.dropWhile_cons, if_neg (by simp [hc])]
  rfl

/-- C8 counterexample: content made of 50001 newline characters has
50002 lines, exceeds the warning threshold and is a non-empty string,
and one enabled pattern is present, yet triggerSearch with showWarning
set returns the cleared outcome, not the requires-confirmation signal,
because the blank-content check fires first. -/
theorem C8_counterexample :
    (List.replicate 50001 '\n' : List Char) ≠ [] ∧
    shouldWarnLargeContent (List.replicate 50001 '\n') = true ∧
    (([errorPattern] : List SearchPattern).filter (·.isEnabled)).isEmpty = false ∧
    triggerSearchModel true (List.replicate 50001 '\n') [errorPattern] false true
      = TriggerOutcome.cleared := by
  refine ⟨?_, ?_, rfl, ?_⟩
  · intro h
    have h2 := congrArg List.length h
    rw [List.length_replicate, List.length_nil] at h2
    omega
  · unfold shouldWarnLargeContent
    rw [jsSplit_replicate_nl, List.length_replicate]
    rw [show decide ((50001 + 1 : Nat) > 50000) = true from by decide]
    rw [Bool.true_or]
  · unfold triggerSearchModel
    rw [if_neg (by simp)]
    rw [if_neg (by simp [errorPattern])]
    rw [if_pos (by rw [jsTrim_replicate_nl]; rfl)]

/-- C8 amended: assuming search is enabled and the content is
non-blank (non-empty after trimming), a triggerSearch call with
showWarning set on content over the large-content threshold with at
least one enabled pattern returns the requires-confirmation signal and
does not schedule a search, and re-invoking through forceSearch
schedules the search. -/
theorem C8_requires_confirmation (se : Bool) (content : List Char)
    (ps : List SearchPattern) (hse : se = true)
    (hblank : (jsTrim content).isEmpty = false)
    (hwarn : shouldWarnLargeContent content = true)
    (hen : (ps.filter (·.isEnabled)).isEmpty = false) :
    triggerSearchModel se content ps false true = TriggerOutcome.requiresConfirmation ∧
    forceSearchModel se content ps = TriggerOutcome.scheduled := by
  subst hse
  constructor
  · unfold triggerSearchModel
    rw [if_neg (by simp)]
    rw [if_neg (by simp [hen])]
    rw [if_neg (by simp [hblank])]
    rw [if_pos (by rw [hwarn]; rfl)]
  · unfold forceSearchModel triggerSearchModel
    rw [if_neg (by simp)]
    rw [if_neg (by simp [hen])]
    rw [if_neg (by simp [hblank])]
    rw [if_neg (by simp)]

/-- C8 witness: one character followed by 50001 newlines is non-blank,
has 50002 lines, and with one enabled pattern the gated call returns
requires-confirmation while forceSearch schedules. -/
theorem C8_witness :
    (jsTrim ('a' :: List.replicate 50001 '\n')).isEmpty = false ∧
    shouldWarnLargeContent ('a' :: List.replicate 50001 '\n') = true ∧
    (([errorPattern] : List SearchPattern).filter (·.isEnabled)).isEmpty = false ∧
    (triggerSearchModel true ('a' :: List.replicate 50001 '\n') [errorPattern] false true
        = TriggerOutcome.requiresConfirmation ∧
      forceSearchModel true ('a' :: List.replicate 50001 '\n') [errorPattern]
        = TriggerOutcome.scheduled) := by
  have hblank : (jsTrim ('a' :: List.replicate 50001 '\n')).isEmpty = false := by
    rw [jsTrim_cons_replicate_nl 'a' (by decide) 50001]; rfl
  have hwarn : shouldWarnLargeContent ('a' :: List.replicate 50001 '\n') = true := by
    unfold shouldWarnLargeContent
    rw [jsSplit_cons_replicate_nl 'a' (by decide) 50001]
    rw [List.length_cons, List.length_replicate]
    rw [show decide ((50001 + 1 : Nat) > 50000) = true from by decide]
    rw [Bool.true_or]
  exact ⟨hblank, hwarn, rfl,
    C8_requires_confirmation true ('a' :: List.replicate 50001 '\n') [errorPattern]
      rfl hblank hwarn rfl⟩

/-! ## Claim theorems: archive format detection -/

/-- When a string ends with two suffixes, the shorter suffix ends the
longer one. -/
theorem jsEndsWith_of_jsEndsWith (s a b : List Char)
    (ha : jsEndsWith s a = true) (hb : jsEndsWith s b = true)
    (hab : a.length ≤ b.length) : jsEndsWith b a = true := by
  unfold jsEndsWith at ha hb ⊢
  rw [Bool.and_eq_true] at ha hb
  obtain ⟨hla, hda⟩ := ha
  obtain ⟨hlb, hdb⟩ := hb
  rw [decide_eq_true_eq] at hla hlb
  have hda' : List.drop (s.length - a.length) s = a := eq_of_beq hda
  have hdb' : List.drop (s.length - b.length) s = b := eq_of_beq hdb
  rw [Bool.and_eq_true]
  refine ⟨decide_eq_true_eq.mpr hab, ?_⟩
  have hstep : List.drop (b.length - a.length) (List.drop (s.length - b.length) s)
      = List.drop (s.length - a.length) s := by
    rw [List.drop_drop]
    congr 1
    omega
  rw [hdb', hda'] at hstep
  rw [hstep]
  exact beq_self_eq_true a

/-- A filename cannot end with suffix b when it ends with suffix a, a
is no longer than b, and b does not itself end with a. -/
theorem jsEndsWith_excl (s a b : List Char) (hb : jsEndsWith b a = false)
    (hab : a.length ≤ b.length) (ha : jsEndsWith s a = true) :
    jsEndsWith s b = false := by
  cases he : jsEndsWith s b with
  | false => rfl
  | true =>
    have := jsEndsWith_of_jsEndsWith s a b ha he hab
    rw [hb] at this
    exact absurd this (by simp)

set_option maxRecDepth 4000 in
/-- C6 counterexample: a 262-byte buffer holding the ASCII letters
ustar at offsets 257 to 261 under an unlisted extension is classified
unknown by the source, while the rule the claim states classifies it
as tar (the source additionally requires the buffer to be longer than
262 bytes). -/
theorem C6_counterexample :
    detectCompressionFormat ("data.bin".toList)
        (List.replicate 257 0 ++ [117, 115, 116, 97, 114]) = ArchiveFormat.unknown ∧
    claimDetectFormat ("data.bin".toList)
        (List.replicate 257 0 ++ [117, 115, 116, 97, 114]) = ArchiveFormat.tar := by
  constructor
  · decide
  · decide

/-- The two extension-check orders coincide whenever the clashing
extension pairs cannot both match, stated over plain booleans. -/
theorem detect_order_bool (z t7 t4 g gp t : Bool) (mag : ArchiveFormat)
    (h1 : z = true → t7 = false) (h2 : z = true → t4 = false)
    (h3 : z = true → g = false) (h4 : z = true → gp = false)
    (h5 : z = true → t = false)
    (h6 : g = true → t = false) (h7 : gp = true → t = false) :
    (if z = true then ArchiveFormat.zip
     else if (t7 || t4) = true then ArchiveFormat.targz
     else if (g || gp) = true then ArchiveFormat.gzip
     else if t = true then ArchiveFormat.tar
     else mag)
    = (if (t7 || t4) = true then ArchiveFormat.targz
       else if t = true then ArchiveFormat.tar
       else if (g || gp) = true then ArchiveFormat.gzip
       else if z = true then ArchiveFormat.zip
       else mag) := by
  cases z <;> cases t7 <;> cases t4 <;> cases g <;> cases gp <;> cases t <;> simp_all

/-- C6 amended: for every file name and header buffer the source
detector agrees with the claimed classification, with the tar
magic-byte clause amended to require the buffer to be longer than 262
bytes; in particular the extension checks, despite being tested in a
different order than the claim lists, give the same classification
because no name can end with two of the clashing extensions at once. -/
theorem C6_detect_matches_claim (name : List Char) (buf : List Nat) :
    detectCompressionFormat name buf = claimDetectFormatAmended name buf := by
  show (if jsEndsWith (name.map jsToLower) (".zip".toList) = true then ArchiveFormat.zip
    else if (jsEndsWith (name.map jsToLower) (".tar.gz".toList)
        || jsEndsWith (name.map jsToLower) (".tgz".toList)) = true then ArchiveFormat.targz
    else if (jsEndsWith (name.map jsToLower) (".gz".toList)
        || jsEndsWith (name.map jsToLower) (".gzip".toList)) = true then ArchiveFormat.gzip
    else if jsEndsWith (name.map jsToLower) (".tar".toList) = true then ArchiveFormat.tar
    else if (buf.get? 0 == some 0x50 && buf.get? 1 == some 0x4B) = true then ArchiveFormat.zip
    else if (buf.get? 0 == some 0x1F && buf.get? 1 == some 0x8B) = true then ArchiveFormat.gzip
    else if (decide (buf.length > 262)
        && ((buf.drop 257).take 5 == [117, 115, 116, 97, 114])) = true then ArchiveFormat.tar
    else ArchiveFormat.unknown)
    = (if (jsEndsWith (name.map jsToLower) (".tar.gz".toList)
        || jsEndsWith (name.map jsToLower) (".tgz".toList)) = true then ArchiveFormat.targz
    else if jsEndsWith (name.map jsToLower) (".tar".toList) = true then ArchiveFormat.tar
    else if (jsEndsWith (name.map jsToLower) (".gz".toList)
        || jsEndsWith (name.map jsToLower) (".gzip".toList)) = true then ArchiveFormat.gzip
    else if jsEndsWith (name.map jsToLower) (".zip".toList) = true then ArchiveFormat.zip
    else if (buf.get? 0 == some 0x50 && buf.get? 1 == some 0x4B) = true then ArchiveFormat.zip
    else if (buf.get? 0 == some 0x1F && buf.get? 1 == some 0x8B) = true then ArchiveFormat.gzip
    else if (decide (buf.length > 262)
        && ((buf.drop 257).take 5 == [117, 115, 116, 97, 114])) = true then ArchiveFormat.tar
    else ArchiveFormat.unknown)
  refine detect_order_bool _ _ _ _ _ _ _ ?_ ?_ ?_ ?_ ?_ ?_ ?_
  · exact fun hz => jsEndsWith_excl _ (".zip".toList) (".tar.gz".toList) (by decide) (by decide) hz
  · exact fun hz => jsEndsWith_excl _ (".zip".toList) (".tgz".toList) (by decide) (by decide) hz
  · intro hz
    cases he : jsEndsWith (name.map jsToLower) (".gz".toList) with
    | false => rfl
    | true =>
      have := jsEndsWith_of_jsEndsWith _ (".gz".toList) (".zip".toList) he hz (by decide)
      exact absurd this (by decide)
  · exact fun hz => jsEndsWith_excl _ (".zip".toList) (".gzip".toList) (by decide) (by decide) hz
  · exact fun hz => jsEndsWith_excl _ (".zip".toList) (".tar".toList) (by decide) (by decide) hz
  · exact fun hg => jsEndsWith_excl _ (".gz".toList) (".tar".toList) (by decide) (by decide) hg
  · intro hgp
    cases he : jsEndsWith (name.map jsToLower) (".tar".toList) with
    | false => rfl
    | true =>
      have := jsEndsWith_of_jsEndsWith _ (".tar".toList) (".gzip".toList) he hgp (by decide)
      exact absurd this (by decide)

/-! ## Claim theorems: decompression fallback -/

/-- C7: whenever the format-dispatched decompression of a file fails,
decompressFile does not propagate that error; it processes the raw
bytes as a regular text file and that attempt alone decides the file
outcome, succeeding when the plain read succeeds and failing only when
the plain read also fails. -/
theorem C7_decompress_fallback (ops : ProcessorOps) (name : List Char)
    (buffer : List Nat) (e : String)
    (hfail : decompressAttempt ops (detectCompressionFormat name buffer) name buffer
      = Except.error e) :
    decompressFileModel ops name buffer = ops.processRegularFile name buffer := by
  unfold decompressFileModel
  rw [hfail]

/-- C7 witness: a gz file whose gzip decompression reports corruption
falls back to the plain-text reader, which succeeds, so the file
outcome is the raw text and not the decompression error. -/
theorem C7_witness :
    decompressAttempt corruptGzipOps
        (detectCompressionFormat ("app.log.gz".toList) [1, 2, 3])
        ("app.log.gz".toList) [1, 2, 3] = Except.error "corrupt gzip" ∧
    decompressFileModel corruptGzipOps ("app.log.gz".toList) [1, 2, 3]
      = corruptGzipOps.processRegularFile ("app.log.gz".toList) [1, 2, 3] ∧
    corruptGzipOps.processRegularFile ("app.log.gz".toList) [1, 2, 3]
      = Except.ok ("raw text".toList) := by
  refine ⟨rfl, ?_, rfl⟩
  exact C7_decompress_fallback corruptGzipOps ("app.log.gz".toList) [1, 2, 3]
    "corrupt gzip" rfl

/-! ## Claim theorems: zero-length regex matches -/

/-- C1: the source regex loop does not force cursor advancement on a
zero-length match, so it never terminates: with the faithful exec
model of the regex b* on the line abc, the match at index 0 has length
zero, the cursor stays at 0, and the loop is still running after any
number of iterations; consequently the per-pattern step diverges
instead of reaching the end of the line as the claim states. -/
theorem C1_zero_length_match_loops :
    (∀ fuel : Nat, regexLoop bStarMatcher bStarPattern ("abc".toList) fuel 0 = none) ∧
    stepPattern bStarEngine ("abc".toList) bStarPattern = none := by
  have hm : bStarMatcher ("abc".toList) 0 = some (0, 0) := by decide
  have hloop : ∀ fuel : Nat,
      regexLoop bStarMatcher bStarPattern ("abc".toList) fuel 0 = none := by
    intro fuel
    induction fuel with
    | zero => rfl
    | succ k ih =>
      show (match bStarMatcher ("abc".toList) 0 with
        | none => some ([], false)
        | some (idx, len) =>
          match regexLoop bStarMatcher bStarPattern ("abc".toList) k (idx + len) with
          | none => none
          | some (spans, _) =>
            some ({ pattern := bStarPattern.pattern, color := bStarPattern.color,
                    start := idx, stop := idx + len } :: spans, true)) = none
      rw [hm]
      show (match regexLoop bStarMatcher bStarPattern ("abc".toList) k (0 + 0) with
        | none => none
        | some (spans, _) =>
          some ({ pattern := bStarPattern.pattern, color := bStarPattern.color,
                  start := 0, stop := 0 + 0 } :: spans, true)) = none
      rw [show (0 + 0 : Nat) = 0 from rfl, ih]
  refine ⟨hloop, ?_⟩
  show (match regexLoop bStarMatcher bStarPattern ("abc".toList)
      (("abc".toList).length + 2) 0 with
    | none => none
    | some (spans, b) => some (spans, b, [])) = none
  rw [hloop (("abc".toList).length + 2)]

/-! ## Facts about indexOf and the literal match loop -/

theorem find?_range_minimal :
    ∀ (n : Nat) (pred : Nat → Bool) (i : Nat),
      (List.range n).find? pred = some i → ∀ j, j < i → pred j = false := by
  intro n
  induction n with
  | zero =>
    intro pred i h j hj
    simp [List.range_zero] at h
  | succ k ih =>
    intro pred i h j hj
    rw [List.range_succ_eq_map] at h
    cases hp0 : pred 0 with
    | true =>
      rw [List.find?_cons_of_pos _ hp0] at h
      have : i = 0 := by injection h with h2; omega
      omega
    | false =>
      rw [List.find?_cons_of_neg _ (by simp [hp0])] at h
      rw [List.find?_map] at h
      obtain ⟨i2, hfind, hi2⟩ := Option.map_eq_some'.mp h
      cases j with
      | zero => exact hp0
      | succ j2 =>
        have hj2 : j2 < i2 := by omega
        have := ih (pred ∘ Nat.succ) i2 hfind j2 hj2
        simpa using this

theorem jsIndexOf_some_facts (hay needle : List Char) (c i : Nat)
    (h : jsIndexOf hay needle c = some i) :
    min c hay.length ≤ i ∧ matchesAt hay needle i = true := by
  unfold jsIndexOf at h
  have hp := List.find?_some h
  rw [Bool.and_eq_true, decide_eq_true_eq] at hp
  exact hp

theorem matchesAt_bound (hay needle : List Char) (i : Nat) (hne : needle ≠ [])
    (h : matchesAt hay needle i = true) : i + needle.length ≤ hay.length := by
  unfold matchesAt at h
  have heq := eq_of_beq h
  have hlen := congrArg List.length heq
  rw [List.length_take, List.length_drop] at hlen
  have hpos : 0 < needle.length := List.length_pos.mpr hne
  omega

theorem jsIndexOf_none_facts (hay needle : List Char) (c : Nat) (hne : needle ≠ [])
    (h : jsIndexOf hay needle c = none) :
    ∀ j, min c hay.length ≤ j → matchesAt hay needle j = false := by
  intro j hj
  unfold jsIndexOf at h
  rw [List.find?_eq_none] at h
  by_cases hjl : j ≤ hay.length
  · have hmem : j ∈ List.range (hay.length + 1) := List.mem_range.mpr (by omega)
    have hnot := h j hmem
    cases hm : matchesAt hay needle j with
    | false => rfl
    | true =>
      exact absurd (by rw [Bool.and_eq_true, decide_eq_true_eq]; exact ⟨hj, hm⟩) hnot
  · cases hm : matchesAt hay needle j with
    | false => rfl
    | true =>
      have := matchesAt_bound hay needle j hne hm
      have hpos : 0 < needle.length := List.length_pos.mpr hne
      omega

theorem jsIndexOf_minimal (hay needle : List Char) (c i : Nat)
    (h : jsIndexOf hay needle c = some i) :
    ∀ j, min c hay.length ≤ j → j < i → matchesAt hay needle j = false := by
  intro j hj hji
  have hfalse := find?_range_minimal (hay.length + 1) _ i h j hji
  have hd : decide (min c hay.length ≤ j) = true := decide_eq_true_eq.mpr hj
  cases hm : matchesAt hay needle j with
  | false => rfl
  | true =>
    exfalso
    rw [hd, hm] at hfalse
    exact absurd hfalse (by decide)

/-- One-step unfolding of the literal loop. -/
theorem literalLoop_succ (p : SearchPattern) (line : List Char) (k cursor : Nat) :
    literalLoop p line (k + 1) cursor
      = match jsIndexOf (line.map jsToLower) (p.pattern.map jsToLower) cursor with
        | none => some ([], false)
        | some idx =>
          match literalLoop p line k (idx + p.pattern.length) with
          | none => none
          | some (spans, _) =>
            some ({ pattern := p.pattern, color := p.color,
                    start := idx, stop := idx + p.pattern.length } :: spans, true) := rfl

theorem literalLoop_some_facts (p : SearchPattern) (line : List Char)
    (hne : p.pattern ≠ []) :
    ∀ (fuel cursor : Nat) (spans : List MatchSpan) (b : Bool),
      literalLoop p line fuel cursor = some (spans, b) →
      b = !spans.isEmpty ∧ leftmostSpans p line cursor spans := by
  have hne' : p.pattern.map jsToLower ≠ [] :=
    fun hm => hne (List.map_eq_nil_iff.mp hm)
  have hpos : 0 < p.pattern.length := List.length_pos.mpr hne
  intro fuel
  induction fuel with
  | zero =>
    intro cursor spans b h
    exact absurd h (by simp [literalLoop])
  | succ k ih =>
    intro cursor spans b h
    rw [literalLoop_succ] at h
    cases hidx : jsIndexOf (line.map jsToLower) (p.pattern.map jsToLower) cursor with
    | none =>
      simp only [hidx] at h
      injection h with h2
      injection h2 with hs hb
      subst hs; subst hb
      refine ⟨rfl, ?_⟩
      intro j hj
      intro hocc
      have := jsIndexOf_none_facts _ _ cursor hne' hidx j
        (le_trans (Nat.min_le_left _ _) hj)
      rw [hocc] at this
      exact absurd this (by decide)
    | some idx =>
      simp only [hidx] at h
      cases hrec : literalLoop p line k (idx + p.pattern.length) with
      | none =>
        simp only [hrec] at h
        exact Option.noConfusion h
      | some pair =>
        obtain ⟨spans2, b2⟩ := pair
        simp only [hrec] at h
        injection h with h2
        injection h2 with hs hb
        subst hs; subst hb
        obtain ⟨hb2, hleft2⟩ := ih (idx + p.pattern.length) spans2 b2 hrec
        obtain ⟨hmin, hmatch⟩ := jsIndexOf_some_facts _ _ cursor idx hidx
        have hbound := matchesAt_bound _ _ idx hne' hmatch
        rw [List.length_map, List.length_map] at hbound
        have hminc : min cursor (line.map jsToLower).length ≤ idx := hmin
        rw [List.length_map] at hminc
        have hcle : cursor ≤ idx := by omega
        refine ⟨rfl, hcle, hmatch, ?_, rfl, hleft2⟩
        intro j hj hji hocc
        have := jsIndexOf_minimal _ _ cursor idx hidx j
          (le_trans (Nat.min_le_left _ _) hj) hji
        rw [hocc] at this
        exact absurd this (by decide)

theorem literalLoop_total (p : SearchPattern) (line : List Char)
    (hne : p.pattern ≠ []) :
    ∀ (fuel cursor : Nat), cursor ≤ line.length →
      line.length + 1 ≤ fuel + cursor →
      ∃ out, literalLoop p line fuel cursor = some out := by
  have hne' : p.pattern.map jsToLower ≠ [] :=
    fun hm => hne (List.map_eq_nil_iff.mp hm)
  have hpos : 0 < p.pattern.length := List.length_pos.mpr hne
  intro fuel
  induction fuel with
  | zero => intro cursor h1 h2; omega
  | succ k ih =>
    intro cursor h1 h2
    rw [literalLoop_succ]
    cases hidx : jsIndexOf (line.map jsToLower) (p.pattern.map jsToLower) cursor with
    | none => exact ⟨([], false), rfl⟩
    | some idx =>
      obtain ⟨hmin, hmatch⟩ := jsIndexOf_some_facts _ _ cursor idx hidx
      have hbound := matchesAt_bound _ _ idx hne' hmatch
      rw [List.length_map, List.length_map] at hbound
      rw [List.length_map] at hmin
      obtain ⟨⟨spans2, b2⟩, hout⟩ := ih (idx + p.pattern.length) (by omega) (by omega)
      simp only [hout]
      exact ⟨({ pattern := p.pattern, color := p.color,
                start := idx, stop := idx + p.pattern.length } :: spans2, true), rfl⟩

theorem leftmostSpans_facts (p : SearchPattern) (line : List Char) :
    ∀ (c : Nat) (spans : List MatchSpan), leftmostSpans p line c spans →
      spans.Pairwise (fun a b => a.stop ≤ b.start) ∧
      ∀ sp ∈ spans, sp.stop = sp.start + p.pattern.length ∧
        occursAt p line sp.start ∧ c ≤ sp.start := by
  intro c spans
  induction spans generalizing c with
  | nil => exact fun _ => ⟨List.Pairwise.nil, by simp⟩
  | cons sp rest ih =>
    intro h
    obtain ⟨hc, hocc, hmin, hstop, hrec⟩ := h
    obtain ⟨hpw, hfacts⟩ := ih sp.stop hrec
    constructor
    · exact List.pairwise_cons.mpr ⟨fun b hb => (hfacts b hb).2.2, hpw⟩
    · intro q hq
      rcases List.mem_cons.mp hq with hq | hq
      · subst hq
        exact ⟨hstop, hocc, hc⟩
      · obtain ⟨h1, h2, h3⟩ := hfacts q hq
        refine ⟨h1, h2, ?_⟩
        omega

/-- C4: for every literal (non-regex) pattern with non-empty text and
every line, the literal matching loop terminates and returns exactly
the leftmost-first, case-insensitive, non-overlapping occurrence
spans: each span has length equal to the pattern text, consecutive
spans do not overlap (each next occurrence is searched from the end of
the previous one), and the per-pattern step uses exactly this result
with the hasMatch flag true precisely when a span exists. -/
theorem C4_literal_spans (p : SearchPattern) (line : List Char)
    (hreg : p.isRegex = false) (hne : p.pattern ≠ []) :
    ∃ spans, literalStep p line = some (spans, !spans.isEmpty) ∧
      leftmostSpans p line 0 spans ∧
      (∀ sp ∈ spans, sp.stop - sp.start = p.pattern.length) ∧
      spans.Pairwise (fun a b => a.stop ≤ b.start) ∧
      ∀ eng : RegexEngine,
        stepPattern eng line p = some (spans, !spans.isEmpty, []) := by
  obtain ⟨⟨spans, b⟩, hout⟩ :=
    literalLoop_total p line hne (line.length + 1) 0 (by omega) (by omega)
  obtain ⟨hb, hleft⟩ := literalLoop_some_facts p line hne (line.length + 1) 0 spans b hout
  subst hb
  obtain ⟨hpw, hfacts⟩ := leftmostSpans_facts p line 0 spans hleft
  refine ⟨spans, hout, hleft, ?_, hpw, ?_⟩
  · intro sp hsp
    have := (hfacts sp hsp).1
    omega
  · intro eng
    have hout' : literalStep p line = some (spans, !spans.isEmpty) := hout
    show (if p.isRegex = true then
        match eng.compile p.pattern with
        | none => some ([], false, [p.pattern])
        | some m =>
          match regexLoop m p line (line.length + 2) 0 with
          | none => none
          | some (spans, b) => some (spans, b, [])
      else
        match literalStep p line with
        | none => none
        | some (spans, b) => some (spans, b, []))
      = some (spans, !spans.isEmpty, [])
    rw [if_neg (by rw [hreg]; exact fun hc => Bool.noConfusion hc), hout']

/-- C4 witness: the literal pattern error on the line holding ErrOR
and error satisfies the occurrence characterization. -/
theorem C4_witness :
    errorPattern.isRegex = false ∧ errorPattern.pattern ≠ [] ∧
    (∃ spans, literalStep errorPattern ("ErrOR and error".toList)
        = some (spans, !spans.isEmpty) ∧
      leftmostSpans errorPattern ("ErrOR and error".toList) 0 spans ∧
      (∀ sp ∈ spans, sp.stop - sp.start = errorPattern.pattern.length) ∧
      spans.Pairwise (fun a b => a.stop ≤ b.start) ∧
      ∀ eng : RegexEngine,
        stepPattern eng ("ErrOR and error".toList) errorPattern
          = some (spans, !spans.isEmpty, [])) := by
  refine ⟨rfl, by decide, ?_⟩
  exact C4_literal_spans errorPattern ("ErrOR and error".toList) rfl (by decide)

/-! ## Claim theorems: invalid regex patterns are contained -/

/-- Unfolding of the per-pattern step. -/
theorem stepPattern_def (eng : RegexEngine) (line : List Char) (p : SearchPattern) :
    stepPattern eng line p
      = if p.isRegex = true then
          (match eng.compile p.pattern with
            | none => some ([], false, [p.pattern])
            | some m =>
              match regexLoop m p line (line.length + 2) 0 with
              | none => none
              | some (spans, b) => some (spans, b, []))
        else
          (match literalStep p line with
            | none => none
            | some (spans, b) => some (spans, b, [])) := rfl

theorem stepPattern_compile_fail (eng : RegexEngine) (p : SearchPattern)
    (line : List Char) (hreg : p.isRegex = true)
    (hcomp : eng.compile p.pattern = none) :
    stepPattern eng line p = some ([], false, [p.pattern]) := by
  rw [stepPattern_def, if_pos hreg, hcomp]

/-- Unfolding of processLine over a cons. -/
theorem processLine_cons (eng : RegexEngine) (p : SearchPattern)
    (rest : List SearchPattern) (line : List Char) :
    processLine eng (p :: rest) line
      = match stepPattern eng line p with
        | none => none
        | some (s, b, w) =>
          match processLine eng rest line with
          | none => none
          | some (s2, m2, w2) => some (s ++ s2, (p.id, b) :: m2, w ++ w2) := rfl

theorem processLine_append (eng : RegexEngine) (line : List Char) :
    ∀ xs ys : List SearchPattern,
      processLine eng (xs ++ ys) line
        = match processLine eng xs line, processLine eng ys line with
          | some (s1, m1, w1), some (s2, m2, w2) =>
              some (s1 ++ s2, m1 ++ m2, w1 ++ w2)
          | _, _ => none := by
  intro xs
  induction xs with
  | nil =>
    intro ys
    show processLine eng ys line = _
    cases hys : processLine eng ys line with
    | none => rfl
    | some t =>
      obtain ⟨s, m, w⟩ := t
      rfl
  | cons p xs ih =>
    intro ys
    rw [List.cons_append, processLine_cons, processLine_cons]
    cases hst : stepPattern eng line p with
    | none => rfl
    | some t =>
      obtain ⟨s, b, w⟩ := t
      rw [ih ys]
      cases hxs : processLine eng xs line with
      | none => rfl
      | some t2 =>
        obtain ⟨s2, m2, w2⟩ := t2
        cases hys : processLine eng ys line with
        | none => rfl
        | some t3 =>
          obtain ⟨s3, m3, w3⟩ := t3
          simp [List.append_assoc]

/-- C5: a pattern whose regex text fails to compile is caught inside
the per-pattern try block: it contributes zero spans, its
patternMatches entry is false, exactly one warning naming the pattern
text is emitted, and the evaluation of every other pattern on every
line is unchanged, the whole line evaluation completing whenever the
other patterns complete (the job never aborts because of the invalid
pattern). -/
theorem C5_invalid_pattern (eng : RegexEngine) (p : SearchPattern)
    (line : List Char) (ps1 ps2 : List SearchPattern)
    (hreg : p.isRegex = true) (hcomp : eng.compile p.pattern = none) :
    stepPattern eng line p = some ([], false, [p.pattern]) ∧
    processLine eng (ps1 ++ p :: ps2) line
      = match processLine eng ps1 line, processLine eng ps2 line with
        | some (s1, m1, w1), some (s2, m2, w2) =>
            some (s1 ++ s2, m1 ++ ((p.id, false) :: m2), w1 ++ (p.pattern :: w2))
        | _, _ => none := by
  have hstep := stepPattern_compile_fail eng p line hreg hcomp
  refine ⟨hstep, ?_⟩
  rw [processLine_append]
  rw [processLine_cons, hstep]
  cases hps1 : processLine eng ps1 line with
  | none => rfl
  | some t1 =>
    obtain ⟨s1, m1, w1⟩ := t1
    cases hps2 : processLine eng ps2 line with
    | none => rfl
    | some t2 =>
      obtain ⟨s2, m2, w2⟩ := t2
      rfl

/-- C5 witness: the invalid regex pattern next to a literal pattern on
a concrete line contributes no spans, a false match entry, and one
warning, with the literal pattern evaluated unchanged. -/
theorem C5_witness :
    badRegexPattern.isRegex = true ∧
    nullEngine.compile badRegexPattern.pattern = none ∧
    (stepPattern nullEngine ("error x".toList) badRegexPattern
        = some ([], false, [badRegexPattern.pattern]) ∧
      processLine nullEngine ([errorPattern] ++ badRegexPattern :: []) ("error x".toList)
        = match processLine nullEngine [errorPattern] ("error x".toList),
            processLine nullEngine [] ("error x".toList) with
          | some (s1, m1, w1), some (s2, m2, w2) =>
              some (s1 ++ s2, m1 ++ ((badRegexPattern.id, false) :: m2),
                w1 ++ (badRegexPattern.pattern :: w2))
          | _, _ => none) :=
  ⟨rfl, rfl,
    C5_invalid_pattern nullEngine badRegexPattern ("error x".toList)
      [errorPattern] [] rfl rfl⟩

/-! ## Claim theorems: the flat-chain boolean fold -/

/-- One-step unfolding of the regex loop. -/
theorem regexLoop_succ (m : Matcher) (p : SearchPattern) (line : List Char)
    (k c : Nat) :
    regexLoop m p line (k + 1) c
      = match m line c with
        | none => some ([], false)
        | some (idx, len) =>
          match regexLoop m p line k (idx + len) with
          | none => none
          | some (spans, _) =>
            some ({ pattern := p.pattern, color := p.color,
                    start := idx, stop := idx + len } :: spans, true) := rfl

theorem regexLoop_bool (m : Matcher) (p : SearchPattern) (line : List Char) :
    ∀ (fuel c : Nat) (spans : List MatchSpan) (b : Bool),
      regexLoop m p line fuel c = some (spans, b) → b = !spans.isEmpty := by
  intro fuel
  induction fuel with
  | zero =>
    intro c spans b h
    exact Option.noConfusion h
  | succ k ih =>
    intro c spans b h
    rw [regexLoop_succ] at h
    cases hm : m line c with
    | none =>
      simp only [hm] at h
      injection h with h2
      injection h2 with hs hb
      subst hs; subst hb; rfl
    | some pair =>
      obtain ⟨idx, len⟩ := pair
      simp only [hm] at h
      cases hrec : regexLoop m p line k (idx + len) with
      | none =>
        simp only [hrec] at h
        exact Option.noConfusion h
      | some t =>
        obtain ⟨spans2, b2⟩ := t
        simp only [hrec] at h
        injection h with h2
        injection h2 with hs hb
        subst hs; subst hb; rfl

theorem literalLoop_bool (p : SearchPattern) (line : List Char) :
    ∀ (fuel c : Nat) (spans : List MatchSpan) (b : Bool),
      literalLoop p line fuel c = some (spans, b) → b = !spans.isEmpty := by
  intro fuel
  induction fuel with
  | zero =>
    intro c spans b h
    exact Option.noConfusion h
  | succ k ih =>
    intro c spans b h
    rw [literalLoop_succ] at h
    cases hm : jsIndexOf (line.map jsToLower) (p.pattern.map jsToLower) c with
    | none =>
      simp only [hm] at h
      injection h with h2
      injection h2 with hs hb
      subst hs; subst hb; rfl
    | some idx =>
      simp only [hm] at h
      cases hrec : literalLoop p line k (idx + p.pattern.length) with
      | none =>
        simp only [hrec] at h
        exact Option.noConfusion h
      | some t =>
        obtain ⟨spans2, b2⟩ := t
        simp only [hrec] at h
        injection h with h2
        injection h2 with hs hb
        subst hs; subst hb; rfl

theorem stepPattern_bool (eng : RegexEngine) (line : List Char) (p : SearchPattern)
    (s : List MatchSpan) (b : Bool) (w : List (List Char))
    (h : stepPattern eng line p = some (s, b, w)) : b = !s.isEmpty := by
  rw [stepPattern_def] at h
  by_cases hr : p.isRegex = true
  · rw [if_pos hr] at h
    cases hc : eng.compile p.pattern with
    | none =>
      simp only [hc] at h
      injection h with h2
      injection h2 with hs h3
      injection h3 with hb hw
      subst hs; subst hb; rfl
    | some m =>
      simp only [hc] at h
      cases hl : regexLoop m p line (line.length + 2) 0 with
      | none =>
        simp only [hl] at h
        exact Option.noConfusion h
      | some t =>
        obtain ⟨s2, b2⟩ := t
        simp only [hl] at h
        injection h with h2
        injection h2 with hs h3
        injection h3 with hb hw
        subst hs; subst hb
        exact regexLoop_bool m p line (line.length + 2) 0 s2 b2 hl
  · rw [if_neg hr] at h
    cases hl : literalStep p line with
    | none =>
      simp only [hl] at h
      exact Option.noConfusion h
    | some t =>
      obtain ⟨s2, b2⟩ := t
      simp only [hl] at h
      injection h with h2
      injection h2 with hs h3
      injection h3 with hb hw
      subst hs; subst hb
      exact literalLoop_bool p line (line.length + 1) 0 s2 b2 hl

theorem processLine_pairs (eng : RegexEngine) (line : List Char) :
    ∀ (ps : List SearchPattern) (spans : List MatchSpan)
      (pairs : List (String × Bool)) (ws : List (List Char)),
      processLine eng ps line = some (spans, pairs, ws) →
      pairs = ps.map (fun q => (q.id, patternHasMatch eng line q)) := by
  intro ps
  induction ps with
  | nil =>
    intro s pr w h
    injection h with h2
    injection h2 with hs h3
    injection h3 with hp hw
    subst hp
    rfl
  | cons q rest ih =>
    intro s pr w h
    rw [processLine_cons] at h
    cases hst : stepPattern eng line q with
    | none =>
      simp only [hst] at h
      exact Option.noConfusion h
    | some t =>
      obtain ⟨s1, b1, w1⟩ := t
      simp only [hst] at h
      cases hrest : processLine eng rest line with
      | none =>
        simp only [hrest] at h
        exact Option.noConfusion h
      | some t2 =>
        obtain ⟨s2, m2, w2⟩ := t2
        simp only [hrest] at h
        injection h with h2
        injection h2 with hs h3
        injection h3 with hp hw
        subst hp
        rw [List.map_cons]
        have hb : patternHasMatch eng line q = b1 := by
          unfold patternHasMatch
          rw [hst]
        rw [hb]
        rw [ih s2 m2 w2 hrest]

theorem lookup_append_eq (k : String) :
    ∀ (l1 l2 : List (String × Bool)),
      (l1 ++ l2).lookup k
        = match l1.lookup k with
          | some v => some v
          | none => l2.lookup k := by
  intro l1 l2
  induction l1 with
  | nil => rfl
  | cons e rest ih =>
    obtain ⟨a, b⟩ := e
    show List.lookup k ((a, b) :: (rest ++ l2)) = _
    rw [List.lookup_cons, List.lookup_cons]
    cases hka : k == a with
    | true => rfl
    | false => exact ih

theorem lookup_some_key_mem (k : String) :
    ∀ (l : List (String × Bool)) (v : Bool),
      l.lookup k = some v → k ∈ l.map Prod.fst := by
  intro l
  induction l with
  | nil => intro v h; exact Option.noConfusion h
  | cons e rest ih =>
    obtain ⟨a, b⟩ := e
    intro v h
    rw [List.lookup_cons] at h
    cases hka : k == a with
    | true =>
      have : k = a := eq_of_beq hka
      subst this
      exact List.mem_cons_self _ _
    | false =>
      rw [hka] at h
      exact List.mem_cons_of_mem _ (ih v h)

theorem lookup_reverse_nodup (k : String) :
    ∀ (l : List (String × Bool)), (l.map Prod.fst).Nodup →
      l.reverse.lookup k = l.lookup k := by
  intro l
  induction l with
  | nil => intro h; rfl
  | cons e rest ih =>
    obtain ⟨a, b⟩ := e
    intro hnd
    rw [List.map_cons, List.nodup_cons] at hnd
    obtain ⟨hna, hnd2⟩ := hnd
    rw [List.reverse_cons, lookup_append_eq, ih hnd2]
    cases hlk : List.lookup k rest with
    | none =>
      show List.lookup k [(a, b)] = List.lookup k ((a, b) :: rest)
      rw [List.lookup_cons, List.lookup_cons]
      cases hka : k == a with
      | true => rfl
      | false =>
        show List.lookup k ([] : List (String × Bool)) = List.lookup k rest
        rw [hlk]
        rfl
    | some v =>
      have hkm : k ∈ rest.map Prod.fst := lookup_some_key_mem k rest v hlk
      have hne : (k == a) = false := by
        cases hka : k == a with
        | false => rfl
        | true =>
          have : k = a := eq_of_beq hka
          subst this
          exact absurd hkm hna
      show some v = List.lookup k ((a, b) :: rest)
      rw [List.lookup_cons, hne, hlk]

theorem lookupMatch_map_nodup (f : SearchPattern → Bool) :
    ∀ (ps : List SearchPattern), (ps.map (·.id)).Nodup →
      ∀ q ∈ ps, lookupMatch (ps.map fun r => (r.id, f r)) q.id = f q := by
  intro ps hnd q hq
  unfold lookupMatch
  have hkeys : (ps.map fun r => (r.id, f r)).map Prod.fst = ps.map (·.id) := by
    rw [List.map_map]
    rfl
  rw [lookup_reverse_nodup q.id _ (by rw [hkeys]; exact hnd)]
  have hlk : (ps.map fun r => (r.id, f r)).lookup q.id = some (f q) := by
    clear hkeys
    induction ps with
    | nil => exact absurd hq (List.not_mem_nil q)
    | cons p rest ih =>
      rw [List.map_cons, List.lookup_cons]
      rw [List.map_cons, List.nodup_cons] at hnd
      obtain ⟨hna, hnd2⟩ := hnd
      rcases List.mem_cons.mp hq with hq1 | hq1
      · subst hq1
        rw [show (q.id == q.id) = true from beq_self_eq_true q.id]
      · have hne : (q.id == p.id) = false := by
          cases hka : q.id == p.id with
          | false => rfl
          | true =>
            have heq : q.id = p.id := eq_of_beq hka
            have : p.id ∈ rest.map (·.id) := by
              rw [← heq]
              exact List.mem_map_of_mem _ hq1
            exact absurd this hna
        rw [hne]
        exact ih hnd2 hq1
  rw [hlk]
  rfl

theorem foldl_ops_all_false (hm : SearchPattern → Bool) :
    ∀ (l : List SearchPattern), (∀ q ∈ l, hm q = false) →
      l.foldl (fun acc q =>
        match q.logicalOperator with
        | some LogicalOp.OR => acc || hm q
        | _ => acc && hm q) false = false := by
  intro l
  induction l with
  | nil => intro h; rfl
  | cons q rest ih =>
    intro h
    have hq := h q (List.mem_cons_self q rest)
    have hstep : (match q.logicalOperator with
        | some LogicalOp.OR => false || hm q
        | _ => false && hm q) = false := by
      cases ho : q.logicalOperator with
      | none => rfl
      | some op =>
        cases op with
        | AND => rfl
        | OR => rw [Bool.false_or]; exact hq
    rw [List.foldl_cons, hstep]
    exact ih (fun r hr => h r (List.mem_cons_of_mem q hr))

theorem specChainFold_false (ps : List SearchPattern) (hm : SearchPattern → Bool)
    (h : ∀ q ∈ ps, hm q = false) : specChainFold ps hm = false := by
  cases ps with
  | nil => rfl
  | cons p rest =>
    show rest.foldl _ (hm p) = false
    rw [h p (List.mem_cons_self p rest)]
    exact foldl_ops_all_false hm rest
      (fun r hr => h r (List.mem_cons_of_mem p hr))

theorem specChainFold_true_exists (ps : List SearchPattern)
    (hm : SearchPattern → Bool) (h : specChainFold ps hm = true) :
    ∃ q ∈ ps, hm q = true := by
  by_contra hc
  push_neg at hc
  have hall : ∀ q ∈ ps, hm q = false := by
    intro q hq
    cases hhm : hm q with
    | false => rfl
    | true => exact absurd hhm (hc q hq)
  rw [specChainFold_false ps hm hall] at h
  exact Bool.noConfusion h

theorem processLine_spans_empty (eng : RegexEngine) (line : List Char) :
    ∀ (ps : List SearchPattern) (spans : List MatchSpan)
      (pairs : List (String × Bool)) (ws : List (List Char)),
      processLine eng ps line = some (spans, pairs, ws) →
      (spans = [] ↔ ∀ q ∈ ps, patternHasMatch eng line q = false) := by
  intro ps
  induction ps with
  | nil =>
    intro s pr w h
    injection h with h2
    injection h2 with hs h3
    subst hs
    simp
  | cons q rest ih =>
    intro s pr w h
    rw [processLine_cons] at h
    cases hst : stepPattern eng line q with
    | none =>
      simp only [hst] at h
      exact Option.noConfusion h
    | some t =>
      obtain ⟨s1, b1, w1⟩ := t
      simp only [hst] at h
      cases hrest : processLine eng rest line with
      | none =>
        simp only [hrest] at h
        exact Option.noConfusion h
      | some t2 =>
        obtain ⟨s2, m2, w2⟩ := t2
        simp only [hrest] at h
        injection h with h2
        injection h2 with hs h3
        subst hs
        have hb : patternHasMatch eng line q = b1 := by
          unfold patternHasMatch
          rw [hst]
        have hb1 : b1 = !s1.isEmpty := stepPattern_bool eng line q s1 b1 w1 hst
        have hrest2 := ih s2 m2 w2 hrest
        constructor
        · intro hnil
          obtain ⟨h1, h2⟩ := List.append_eq_nil.mp hnil
          intro r hr
          rcases List.mem_cons.mp hr with hr1 | hr1
          · subst hr1
            rw [hb, hb1, h1]
            rfl
          · exact (hrest2.mp h2) r hr1
        · intro hall
          have hq := hall q (List.mem_cons_self q rest)
          rw [hb, hb1] at hq
          have hs1 : s1 = [] := by
            cases hs1e : s1 with
            | nil => rfl
            | cons a as =>
              rw [hs1e] at hq
              exact Bool.noConfusion hq
          have hs2 : s2 = [] :=
            hrest2.mpr (fun r hr => hall r (List.mem_cons_of_mem q hr))
          rw [hs1, hs2]
          rfl

theorem applyLogical_eq_specFold (f : SearchPattern → Bool)
    (ps : List SearchPattern) (hnd : (ps.map (·.id)).Nodup) :
    applyLogicalOperations ps (lookupMatch (ps.map fun r => (r.id, f r)))
      = specChainFold ps f := by
  cases ps with
  | nil => rfl
  | cons p rest =>
    cases rest with
    | nil =>
      show lookupMatch ([p].map fun r => (r.id, f r)) p.id = f p
      exact lookupMatch_map_nodup f [p] hnd p (List.mem_cons_self p [])
    | cons q rest2 =>
      show (q :: rest2).foldl _ (lookupMatch ((p :: q :: rest2).map fun r => (r.id, f r)) p.id)
        = (q :: rest2).foldl _ (f p)
      rw [lookupMatch_map_nodup f (p :: q :: rest2) hnd p (List.mem_cons_self p _)]
      apply List.foldl_ext
      intro acc r hr
      have hmr : lookupMatch ((p :: q :: rest2).map fun x => (x.id, f x)) r.id = f r :=
        lookupMatch_map_nodup f (p :: q :: rest2) hnd r (List.mem_cons_of_mem p hr)
      cases ho : r.logicalOperator with
      | none => rw [hmr]
      | some op =>
        cases op with
        | AND => rw [hmr]
        | OR => rw [hmr]

/-- Unfolding of the per-line result. -/
theorem lineResult_def (eng : RegexEngine) (ps : List SearchPattern)
    (idx : Nat) (line : List Char) :
    lineResult eng ps idx line
      = match processLine eng ps line with
        | none => none
        | some (spans, pairs, _) =>
          if applyLogicalOperations ps (lookupMatch pairs) && !spans.isEmpty
          then some (some { lineNumber := idx + 1, content := line,
                            matchList := sortSpans spans })
          else some none := rfl

/-- C3: for a non-empty chain of enabled patterns with distinct ids,
whenever the per-line evaluation completes, the line produces a
SearchResult exactly when the strictly left-associative fold of the
per-pattern has-match booleans is true, the fold starting with the
first pattern's boolean and each later pattern combining with OR when
its stored operator is OR and with AND otherwise (including unset). -/
theorem C3_flat_chain (eng : RegexEngine) (ps : List SearchPattern)
    (line : List Char) (idx : Nat)
    (hne : ps ≠ []) (hnd : (ps.map (·.id)).Nodup)
    (hen : ∀ p ∈ ps, p.isEnabled = true)
    (hrun : processLine eng ps line ≠ none) :
    ((∃ r, lineResult eng ps idx line = some (some r)) ↔
      specChainFold ps (patternHasMatch eng line) = true) := by
  obtain ⟨t, ht⟩ := Option.ne_none_iff_exists'.mp hrun
  obtain ⟨spans, pairs, ws⟩ := t
  have hpairs := processLine_pairs eng line ps spans pairs ws ht
  subst hpairs
  have hempty := processLine_spans_empty eng line ps spans _ ws ht
  rw [lineResult_def]
  rw [ht]
  simp only [applyLogical_eq_specFold (patternHasMatch eng line) ps hnd]
  constructor
  · rintro ⟨r, hr⟩
    by_cases hcond : (specChainFold ps (patternHasMatch eng line) && !spans.isEmpty) = true
    · rw [Bool.and_eq_true] at hcond
      exact hcond.1
    · rw [if_neg hcond] at hr
      injection hr with hr2
      exact Option.noConfusion hr2
  · intro hfold
    have hspans : spans ≠ [] := by
      intro hnil
      have hq := specChainFold_true_exists ps _ hfold
      obtain ⟨q, hq, hqt⟩ := hq
      have := (hempty.mp hnil) q hq
      rw [this] at hqt
      exact Bool.noConfusion hqt
    have hie : spans.isEmpty = false := by
      cases hsi : spans.isEmpty with
      | false => rfl
      | true => exact absurd (List.isEmpty_iff.mp hsi) hspans
    have hcond : (specChainFold ps (patternHasMatch eng line) && !spans.isEmpty) = true := by
      rw [hfold, hie]
      rfl
    rw [if_pos hcond]
    exact ⟨_, rfl⟩

/-- C3 witness: the flat chain of the enabled literal patterns error
(unset operator, AND default) and timeout (operator OR), on the line
connection timeout, completes, satisfies the fold equivalence, and the
fold is true, so the line is included. -/
theorem C3_witness :
    ([errorPattern, timeoutPattern] : List SearchPattern) ≠ [] ∧
    (([errorPattern, timeoutPattern].map (·.id)).Nodup) ∧
    (∀ p ∈ ([errorPattern, timeoutPattern] : List SearchPattern), p.isEnabled = true) ∧
    processLine nullEngine [errorPattern, timeoutPattern] ("connection timeout".toList) ≠ none ∧
    ((∃ r, lineResult nullEngine [errorPattern, timeoutPattern] 0
        ("connection timeout".toList) = some (some r)) ↔
      specChainFold [errorPattern, timeoutPattern]
        (patternHasMatch nullEngine ("connection timeout".toList)) = true) ∧
    specChainFold [errorPattern, timeoutPattern]
      (patternHasMatch nullEngine ("connection timeout".toList)) = true := by
  refine ⟨by simp, by decide, by decide, by decide, ?_, by decide⟩
  exact C3_flat_chain nullEngine [errorPattern, timeoutPattern]
    ("connection timeout".toList) 0 (by simp) (by decide) (by decide) (by decide)

/-! ## Claim theorems: invariants of the accumulated results -/

theorem mem_insertSpan (sp x : MatchSpan) :
    ∀ l : List MatchSpan, x ∈ insertSpan sp l → x = sp ∨ x ∈ l := by
  intro l
  induction l with
  | nil =>
    intro h
    rcases List.mem_singleton.mp h with h
    exact Or.inl h
  | cons b bs ih =>
    intro h
    show x = sp ∨ x ∈ b :: bs
    by_cases hle : sp.start ≤ b.start
    · rw [insertSpan, if_pos hle] at h
      rcases List.mem_cons.mp h with h1 | h1
      · exact Or.inl h1
      · exact Or.inr h1
    · rw [insertSpan, if_neg hle] at h
      rcases List.mem_cons.mp h with h1 | h1
      · exact Or.inr (by rw [h1]; exact List.mem_cons_self b bs)
      · rcases ih h1 with h2 | h2
        · exact Or.inl h2
        · exact Or.inr (List.mem_cons_of_mem b h2)

theorem insertSpan_pairwise (sp : MatchSpan) :
    ∀ l : List MatchSpan, l.Pairwise (fun a b => a.start ≤ b.start) →
      (insertSpan sp l).Pairwise (fun a b => a.start ≤ b.start) := by
  intro l
  induction l with
  | nil => intro h; simp [insertSpan]
  | cons b bs ih =>
    intro h
    rw [List.pairwise_cons] at h
    obtain ⟨hb, hbs⟩ := h
    by_cases hle : sp.start ≤ b.start
    · rw [insertSpan, if_pos hle]
      refine List.pairwise_cons.mpr ⟨?_, List.pairwise_cons.mpr ⟨hb, hbs⟩⟩
      intro x hx
      rcases List.mem_cons.mp hx with h1 | h1
      · rw [h1]; exact hle
      · exact le_trans hle (hb x h1)
    · rw [insertSpan, if_neg hle]
      refine List.pairwise_cons.mpr ⟨?_, ih hbs⟩
      intro x hx
      rcases mem_insertSpan sp x bs hx with h1 | h1
      · rw [h1]; omega
      · exact hb x h1

theorem sortSpans_pairwise :
    ∀ l : List MatchSpan, (sortSpans l).Pairwise (fun a b => a.start ≤ b.start) := by
  intro l
  induction l with
  | nil => exact List.Pairwise.nil
  | cons a as ih => exact insertSpan_pairwise a (sortSpans as) ih

theorem insertSpan_length (sp : MatchSpan) :
    ∀ l : List MatchSpan, (insertSpan sp l).length = l.length + 1 := by
  intro l
  induction l with
  | nil => rfl
  | cons b bs ih =>
    by_cases hle : sp.start ≤ b.start
    · rw [insertSpan, if_pos hle]; rfl
    · rw [insertSpan, if_neg hle, List.length_cons, ih, List.length_cons]

theorem sortSpans_length : ∀ l : List MatchSpan, (sortSpans l).length = l.length := by
  intro l
  induction l with
  | nil => rfl
  | cons a as ih =>
    rw [sortSpans, insertSpan_length, ih, List.length_cons]

theorem lineResult_some_facts (eng : RegexEngine) (ps : List SearchPattern)
    (idx : Nat) (line : List Char) (r : SearchResult)
    (h : lineResult eng ps idx line = some (some r)) :
    r.lineNumber = idx + 1 ∧ r.matchList ≠ [] ∧
      r.matchList.Pairwise (fun a b => a.start ≤ b.start) := by
  rw [lineResult_def] at h
  cases hpl : processLine eng ps line with
  | none =>
    simp only [hpl] at h
    exact Option.noConfusion h
  | some t =>
    obtain ⟨spans, pairs, ws⟩ := t
    simp only [hpl] at h
    by_cases hcond : (applyLogicalOperations ps (lookupMatch pairs) && !spans.isEmpty) = true
    · rw [if_pos hcond] at h
      injection h with h2
      injection h2 with h3
      subst h3
      refine ⟨rfl, ?_, sortSpans_pairwise spans⟩
      rw [Bool.and_eq_true] at hcond
      have hse : spans ≠ [] := by
        intro hnil
        rw [hnil] at hcond
        exact Bool.noConfusion hcond.2
      intro hnil
      have := congrArg List.length hnil
      rw [sortSpans_length] at this
      exact hse (List.length_eq_zero.mp this)
    · rw [if_neg hcond] at h
      injection h with h2
      exact Option.noConfusion h2

/-- Unfolding of processLines over a cons. -/
theorem processLines_cons (eng : RegexEngine) (ps : List SearchPattern)
    (idx : Nat) (l : List Char) (ls : List (List Char)) :
    processLines eng ps idx (l :: ls)
      = match lineResult eng ps idx l with
        | none => none
        | some o =>
          match processLines eng ps (idx + 1) ls with
          | none => none
          | some rs =>
            some (match o with
                  | some r => r :: rs
                  | none => rs) := rfl

theorem processLines_facts (eng : RegexEngine) (ps : List SearchPattern) :
    ∀ (ls : List (List Char)) (idx : Nat) (rs : List SearchResult),
      processLines eng ps idx ls = some rs →
      (∀ r ∈ rs, r.matchList ≠ [] ∧
          r.matchList.Pairwise (fun a b => a.start ≤ b.start) ∧
          idx + 1 ≤ r.lineNumber) ∧
      rs.Pairwise (fun a b => a.lineNumber < b.lineNumber) := by
  intro ls
  induction ls with
  | nil =>
    intro idx rs h
    injection h with h2
    subst h2
    exact ⟨by simp, List.Pairwise.nil⟩
  | cons l ls ih =>
    intro idx rs h
    rw [processLines_cons] at h
    cases hlr : lineResult eng ps idx l with
    | none =>
      simp only [hlr] at h
      exact Option.noConfusion h
    | some o =>
      simp only [hlr] at h
      cases hrest : processLines eng ps (idx + 1) ls with
      | none =>
        simp only [hrest] at h
        exact Option.noConfusion h
      | some rs2 =>
        simp only [hrest] at h
        obtain ⟨hf2, hpw2⟩ := ih (idx + 1) rs2 hrest
        cases o with
        | none =>
          injection h with h2
          subst h2
          refine ⟨?_, hpw2⟩
          intro r hr
          obtain ⟨h1, h2, h3⟩ := hf2 r hr
          exact ⟨h1, h2, by omega⟩
        | some r0 =>
          injection h with h2
          subst h2
          obtain ⟨hln, hm, hmpw⟩ := lineResult_some_facts eng ps idx l r0 hlr
          constructor
          · intro r hr
            rcases List.mem_cons.mp hr with h1 | h1
            · subst h1
              exact ⟨hm, hmpw, by omega⟩
            · obtain ⟨ha, hb, hc⟩ := hf2 r h1
              exact ⟨ha, hb, by omega⟩
          · refine List.pairwise_cons.mpr ⟨?_, hpw2⟩
            intro r hr
            have := (hf2 r hr).2.2
            omega

theorem processLines_append (eng : RegexEngine) (ps : List SearchPattern) :
    ∀ (xs ys : List (List Char)) (idx : Nat),
      processLines eng ps idx (xs ++ ys)
        = match processLines eng ps idx xs with
          | none => none
          | some r1 =>
            match processLines eng ps (idx + xs.length) ys with
            | none => none
            | some r2 => some (r1 ++ r2) := by
  intro xs
  induction xs with
  | nil =>
    intro ys idx
    show processLines eng ps idx ys = _
    cases hys : processLines eng ps (idx + List.length []) ys with
    | none => exact hys
    | some r2 =>
      rw [show processLines eng ps idx ys = some r2 from hys]
      rfl
  | cons x xs ih =>
    intro ys idx
    rw [List.cons_append, processLines_cons, processLines_cons]
    have hidx : idx + (x :: xs).length = idx + 1 + xs.length := by
      rw [List.length_cons]
      omega
    rw [hidx]
    cases hlr : lineResult eng ps idx x with
    | none => rfl
    | some o =>
      rw [ih ys (idx + 1)]
      cases hxs : processLines eng ps (idx + 1) xs with
      | none => rfl
      | some r1 =>
        cases hys : processLines eng ps (idx + 1 + xs.length) ys with
        | none => rfl
        | some r2 =>
          cases o with
          | none => rfl
          | some r0 =>
            show some (r0 :: (r1 ++ r2)) = some ((r0 :: r1) ++ r2)
            rw [List.cons_append]

/-- Unfolding of the chunk loop with fuel left. -/
theorem searchChunksGo_succ (eng : RegexEngine) (ps : List SearchPattern)
    (lines : List (List Char)) (cs k i : Nat) :
    searchChunksGo eng ps lines cs (k + 1) i
      = if i < lines.length then
          match processLines eng ps i ((lines.drop i).take cs) with
          | none => none
          | some rs =>
            match searchChunksGo eng ps lines cs k (i + cs) with
            | none => none
            | some rs2 => some (rs ++ rs2)
        else some [] := rfl

theorem searchChunksGo_zero (eng : RegexEngine) (ps : List SearchPattern)
    (lines : List (List Char)) (cs i : Nat) :
    searchChunksGo eng ps lines cs 0 i
      = if i < lines.length then none else some [] := rfl

/-- The chunk loop computes exactly the sequential line-by-line
processing of the remaining lines, whenever the chunk size is positive
and enough fuel is supplied. -/
theorem searchChunksGo_eq_processLines (eng : RegexEngine) (ps : List SearchPattern)
    (lines : List (List Char)) (cs : Nat) (hcs : 0 < cs) :
    ∀ (fuel i : Nat), lines.length + 1 ≤ fuel + i →
      searchChunksGo eng ps lines cs fuel i = processLines eng ps i (lines.drop i) := by
  intro fuel
  induction fuel with
  | zero =>
    intro i h
    rw [searchChunksGo_zero, if_neg (by omega : ¬ i < lines.length)]
    rw [List.drop_eq_nil_of_le (by omega)]
    rfl
  | succ k ih =>
    intro i h
    rw [searchChunksGo_succ]
    by_cases hlt : i < lines.length
    · rw [if_pos hlt]
      rw [ih (i + cs) (by omega)]
      have hsplit : lines.drop i = (lines.drop i).take cs ++ lines.drop (i + cs) := by
        conv_lhs => rw [← List.take_append_drop cs (lines.drop i)]
        rw [List.drop_drop]
      conv_rhs => rw [hsplit]
      rw [processLines_append]
      by_cases hfit : i + cs ≤ lines.length
      · have hlen : (List.take cs (lines.drop i)).length = cs := by
          rw [List.length_take, List.length_drop]
          omega
        rw [hlen]
      · have hnil : lines.drop (i + cs) = [] := List.drop_eq_nil_of_le (by omega)
        rw [hnil]
        cases hch : processLines eng ps i (List.take cs (List.drop i lines)) with
        | none => rfl
        | some rs => rfl
    · rw [if_neg hlt]
      rw [List.drop_eq_nil_of_le (by omega)]
      rfl

/-- Unfolding of the top-level model. -/
theorem searchInChunksModel_def (eng : RegexEngine) (content : List Char)
    (patterns : List SearchPattern) (cs : Nat) :
    searchInChunksModel eng content patterns cs
      = if (patterns.filter (·.isEnabled)).isEmpty then some []
        else searchChunksGo eng (patterns.filter (·.isEnabled)) (jsSplit content)
          cs ((jsSplit content).length + 1) 0 := rfl

/-- C9: with a positive chunk size, every result the chunked search
accumulates has a non-empty match list sorted in ascending span start
and a 1-based line number, and line numbers are strictly increasing
across the result list (results are appended in line order and never
reordered). -/
theorem C9_result_invariants (eng : RegexEngine) (content : List Char)
    (patterns : List SearchPattern) (cs : Nat) (hcs : 0 < cs) :
    (∀ r ∈ (searchInChunksModel eng content patterns cs).getD [],
        r.matchList ≠ [] ∧ r.matchList.Pairwise (fun a b => a.start ≤ b.start) ∧
        1 ≤ r.lineNumber) ∧
    ((searchInChunksModel eng content patterns cs).getD []).Pairwise
      (fun a b => a.lineNumber < b.lineNumber) := by
  rw [searchInChunksModel_def]
  by_cases hen : (patterns.filter (·.isEnabled)).isEmpty = true
  · rw [if_pos hen]
    exact ⟨by simp, by simp⟩
  · rw [if_neg hen]
    rw [searchChunksGo_eq_processLines eng (patterns.filter (·.isEnabled))
      (jsSplit content) cs hcs ((jsSplit content).length + 1) 0 (by omega)]
    rw [List.drop_zero]
    cases hpl : processLines eng (patterns.filter (·.isEnabled)) 0 (jsSplit content) with
    | none => exact ⟨by simp, by simp⟩
    | some rs =>
      obtain ⟨hfacts, hpw⟩ := processLines_facts eng (patterns.filter (·.isEnabled))
        (jsSplit content) 0 rs hpl
      constructor
      · intro r hr
        obtain ⟨h1, h2, h3⟩ := hfacts r (by simpa using hr)
        exact ⟨h1, h2, by omega⟩
      · simpa using hpw

/-- C9 witness: the chunked search over a three-line content with the
two example patterns and chunk size 1000 satisfies the invariants. -/
theorem C9_witness :
    (0 : Nat) < 1000 ∧
    ((∀ r ∈ (searchInChunksModel nullEngine
          ("no match here\nconnection timeout\nerror line".toList)
          [errorPattern, timeoutPattern] 1000).getD [],
        r.matchList ≠ [] ∧ r.matchList.Pairwise (fun a b => a.start ≤ b.start) ∧
        1 ≤ r.lineNumber) ∧
      ((searchInChunksModel nullEngine
          ("no match here\nconnection timeout\nerror line".toList)
          [errorPattern, timeoutPattern] 1000).getD []).Pairwise
        (fun a b => a.lineNumber < b.lineNumber)) :=
  ⟨by decide,
    C9_result_invariants nullEngine
      ("no match here\nconnection timeout\nerror line".toList)
      [errorPattern, timeoutPattern] 1000 (by decide)⟩

end LogAnalysis
